import Mathlib

/-
Verification of the grammar object model and composition algebra of the ohm
source (src/main.js) against its design specification. The loader glue in
src/main.js drives a Builder (define/override/extend), resolves super-grammar
references through process-wide namespaces, and finalizes immutable grammars.
The Builder, Namespace and Grammar classes themselves live in files that are
referenced from src/main.js but are not part of the given sources, so their
operations are modelled from the specification text; the loader actions,
namespace registry and entry points are embedded from src/main.js directly.
-/

namespace Ohm

/-- Primitive literal values that can appear in a grammar body: the named
constants undefined, null, true and false, integer numbers and strings
(section 6 of the specification; the namedConst, number and string actions of
src/main.js). -/
inductive PrimValue where
  | undef
  | nullV
  | boolV (b : Bool)
  | numV (n : Int)
  | strV (s : String)
deriving DecidableEq

/-- Modelled from the spec: the Expression combinator data model of section 3
(Builder.js, which provides the constructors alt, seq, bind, many, opt, not,
la, app, lst, str, obj and inline invoked by src/main.js, is not among the
given sources). -/
inductive Expression where
  | Prim (v : PrimValue)
  | App (ruleName : String)
  | Alt (l r : Expression)
  | Seq (es : List Expression)
  | Bind (e : Expression) (name : String)
  | Many (e : Expression) (minCount : Nat)
  | Opt (e : Expression)
  | Not (e : Expression)
  | Lookahead (e : Expression)
  | Str (e : Expression)
  | Lst (e : Expression)
  | Obj (props : List (String × Expression)) (lenient : Bool)
  | Inline (syntheticName : String) (e : Expression)

/-- Lookup in an association list with string keys, first binding wins. -/
def lookupA {α : Type} : List (String × α) → String → Option α
  | [], _ => none
  | (k, v) :: rest, n => if k = n then some v else lookupA rest n

/-- Replace the binding of a key if present, otherwise append a new binding. -/
def setA {α : Type} : List (String × α) → String → α → List (String × α)
  | [], n, v => [(n, v)]
  | (k, w) :: rest, n, v => if k = n then (n, v) :: rest else (k, w) :: setA rest n v

/-- Modelled from the spec: a Grammar is an immutable named collection of
rules plus an optional shared super-grammar reference (section 3; the Grammar
class reached through Builder.js is not among the given sources). -/
inductive Grammar where
  | mk (name : String) (rules : List (String × Expression)) (superGrammar : Option Grammar)

def Grammar.name : Grammar → String
  | .mk n _ _ => n

def Grammar.rules : Grammar → List (String × Expression)
  | .mk _ rs _ => rs

def Grammar.superGrammar : Grammar → Option Grammar
  | .mk _ _ sg => sg

/-- Modelled from the spec: name resolution through a grammar looks in the
local rule set first and then walks the super-grammar chain (sections 3
and 4.2). -/
def Grammar.resolve : Grammar → String → Option Expression
  | .mk _ rs none, n => lookupA rs n
  | .mk _ rs (some g), n =>
    match lookupA rs n with
    | some e => some e
    | none => Grammar.resolve g n

/-- Compile-time fault taxonomy of section 7, plus the dynamic-language fault
produced when an unqualified super-grammar reference is resolved with no
ambient namespace supplied (src/main.js line 204 dereferences the missing
optNamespace argument). -/
inductive OhmError where
  | DuplicateRuleError (name : String)
  | UndefinedRuleError (name : String)
  | UnknownGrammarError (name : String)
  | MalformedSourceError
  | typeFault
deriving DecidableEq

/-- Modelled from the spec: the transient Builder state of section 3
(Builder.js is not among the given sources). -/
structure Builder where
  grammarName : String := ""
  ruleSet : List (String × Expression) := []
  superGrammar : Option Grammar := none
  currentRuleName : String := ""

/-- Modelled from the spec: the lookup shared by override and extend, local
rule set first, then the whole super-grammar chain (section 4.2). -/
def Builder.lookupRule (b : Builder) (n : String) : Option Expression :=
  match lookupA b.ruleSet n with
  | some e => some e
  | none =>
    match b.superGrammar with
    | some g => g.resolve n
    | none => none

/-- Modelled from the spec: define registers a new rule and fails with
DuplicateRuleError when the name already exists locally (section 4.2). -/
def Builder.define (b : Builder) (n : String) (body : Expression) :
    Except OhmError Builder :=
  match lookupA b.ruleSet n with
  | some _ => .error (.DuplicateRuleError n)
  | none => .ok { b with ruleSet := b.ruleSet ++ [(n, body)] }

/-- Modelled from the spec: override looks the name up locally and then along
the super-grammar chain, fails with UndefinedRuleError when absent everywhere,
and otherwise installs the new body locally (section 4.2). -/
def Builder.override (b : Builder) (n : String) (body : Expression) :
    Except OhmError Builder :=
  match b.lookupRule n with
  | some _ => .ok { b with ruleSet := setA b.ruleSet n body }
  | none => .error (.UndefinedRuleError n)

/-- Modelled from the spec: extend performs the same lookup as override and on
success installs Alt(existingBody, body), original alternatives first
(section 4.2). -/
def Builder.extend (b : Builder) (n : String) (body : Expression) :
    Except OhmError Builder :=
  match b.lookupRule n with
  | some existing => .ok { b with ruleSet := setA b.ruleSet n (.Alt existing body) }
  | none => .error (.UndefinedRuleError n)

/-- Modelled from the spec: build finalizes the accumulated state into an
immutable Grammar value; registration into a namespace is the decision of the
caller, not a side effect of build (section 4.2). -/
def Builder.build (b : Builder) : Grammar :=
  .mk b.grammarName b.ruleSet b.superGrammar

/-- First alternative, in ordered-choice order, accepted by the predicate m:
Alt tries its left side completely before its right side (section 4.1). -/
def firstAlt (m : Expression → Bool) : Expression → Option Expression
  | .Alt l r => (firstAlt m l).orElse (fun _ => firstAlt m r)
  | e => if m e then some e else none

/-- Modelled from the spec: a Namespace is keyed storage mapping names to
Grammars (section 3; Namespace.js is not among the given sources). The id
field models JavaScript object identity: each evaluation of new Namespace
yields a distinct instance. -/
structure Namespace where
  id : Nat
  name : String
  grammars : List (String × Grammar)

/-- The process-wide namespace registry of src/main.js (the namespaces map at
line 241, together with the id counter that models object creation). -/
structure Registry where
  namespaces : List (String × Namespace)
  nextId : Nat

/-- The exported namespace accessor of src/main.js lines 242 to 247: on a
miss, create a fresh Namespace under the requested name and register it;
always return the registered instance. -/
def namespaceOp (n : String) (st : Registry) : Namespace × Registry :=
  match lookupA st.namespaces n with
  | some ns => (ns, st)
  | none =>
    let ns : Namespace := ⟨st.nextId, n, []⟩
    (ns, ⟨st.namespaces ++ [(n, ns)], st.nextId + 1⟩)

/-- Registry well-formedness: every registered Namespace carries the name it
is registered under. -/
def Registry.WF (st : Registry) : Prop :=
  ∀ p ∈ st.namespaces, p.2.name = p.1

/-- Modelled from the spec: getGrammar returns the registered Grammar or
fails with UnknownGrammarError (section 4.3; Namespace.js is not among the
given sources). -/
def Namespace.getGrammar (ns : Namespace) (n : String) : Except OhmError Grammar :=
  match lookupA ns.grammars n with
  | some g => .ok g
  | none => .error (.UnknownGrammarError n)

/-- Resolution of a qualified super-grammar reference, from src/main.js line
203: thisModule.namespace(env.ns).getGrammar(env.n). -/
def resolveQualified (nsN gN : String) (st : Registry) :
    Except OhmError Grammar × Registry :=
  let r := namespaceOp nsN st
  (r.1.getGrammar gN, r.2)

/-- Modelled from the spec: the parse tree of one rule body in the textual
surface of section 6 (the bootstrapped grammar-declaration parser shipped as
dist/ohm-grammar.js is not among the given sources). Constructors follow the
action names of makeGrammarActionDict in src/main.js: Alt-rec, Term-inline,
Seq, Factor-bind, Iter-star, Iter-plus, Iter-opt, Pred-not, Pred-lookahead,
Base-application, Base-prim, Base-lst, Base-str, Base-paren and the object
forms. -/
inductive PExpr where
  | alt (x y : PExpr)
  | inline (x : PExpr)
  | seq (es : List PExpr)
  | bind (x : PExpr) (n : String)
  | star (x : PExpr)
  | plus (x : PExpr)
  | opt (x : PExpr)
  | not (x : PExpr)
  | la (x : PExpr)
  | app (ruleName : String)
  | prim (v : PrimValue)
  | lst (x : PExpr)
  | str (x : PExpr)
  | paren (x : PExpr)
  | obj (ps : List (String × PExpr)) (lenient : Bool)

mutual
/-- The loader translation of a parsed rule body into the Expression model,
embedding the action dictionary of src/main.js lines 150 to 186: each action
calls the corresponding builder constructor on the translated children. The
rule name argument stands for builder.currentRuleName; the Nat argument
threads the inline ordinal counter, and the final list collects the inline
rule names synthesized along the way as currentRuleName, a dash, and the
ordinal (the ordinal itself comes from the bootstrapped grammar, which is not
among the given sources, and is modelled from the spec as a per-rule counter
guaranteeing uniqueness). -/
def loadExpr (r : String) : PExpr → Nat → Expression × Nat × List String
  | .alt x y, c =>
    let px := loadExpr r x c
    let py := loadExpr r y px.2.1
    (.Alt px.1 py.1, py.2.1, px.2.2 ++ py.2.2)
  | .inline x, c =>
    let px := loadExpr r x c
    (.Inline (r ++ "-" ++ Nat.repr px.2.1) px.1, px.2.1 + 1,
      px.2.2 ++ [r ++ "-" ++ Nat.repr px.2.1])
  | .seq es, c =>
    let ps := loadList r es c
    (.Seq ps.1, ps.2.1, ps.2.2)
  | .bind x n, c =>
    let px := loadExpr r x c
    (.Bind px.1 n, px.2.1, px.2.2)
  | .star x, c =>
    let px := loadExpr r x c
    (.Many px.1 0, px.2.1, px.2.2)
  | .plus x, c =>
    let px := loadExpr r x c
    (.Many px.1 1, px.2.1, px.2.2)
  | .opt x, c =>
    let px := loadExpr r x c
    (.Opt px.1, px.2.1, px.2.2)
  | .not x, c =>
    let px := loadExpr r x c
    (.Not px.1, px.2.1, px.2.2)
  | .la x, c =>
    let px := loadExpr r x c
    (.Lookahead px.1, px.2.1, px.2.2)
  | .app n, c => (.App n, c, [])
  | .prim v, c => (.Prim v, c, [])
  | .lst x, c =>
    let px := loadExpr r x c
    (.Lst px.1, px.2.1, px.2.2)
  | .str x, c =>
    let px := loadExpr r x c
    (.Str px.1, px.2.1, px.2.2)
  | .paren x, c => loadExpr r x c
  | .obj ps lenient, c =>
    let pp := loadProps r ps c
    (.Obj pp.1 lenient, pp.2.1, pp.2.2)

/-- Translation of the members of a sequence, in order. -/
def loadList (r : String) : List PExpr → Nat → List Expression × Nat × List String
  | [], c => ([], c, [])
  | x :: xs, c =>
    let px := loadExpr r x c
    let pxs := loadList r xs px.2.1
    (px.1 :: pxs.1, pxs.2.1, px.2.2 ++ pxs.2.2)

/-- Translation of object-pattern properties, in order. -/
def loadProps (r : String) :
    List (String × PExpr) → Nat → List (String × Expression) × Nat × List String
  | [], c => ([], c, [])
  | (n, p) :: ps, c =>
    let pp := loadExpr r p c
    let pps := loadProps r ps pp.2.1
    ((n, pp.1) :: pps.1, pps.2.1, pp.2.2 ++ pps.2.2)
end

/-- Inverse of Nat.digitChar on decimal digits, used to prove that the
decimal rendering of inline ordinals is injective. -/
def charToDigit (ch : Char) : Nat :=
  if ch = '0' then 0 else
  if ch = '1' then 1 else
  if ch = '2' then 2 else
  if ch = '3' then 3 else
  if ch = '4' then 4 else
  if ch = '5' then 5 else
  if ch = '6' then 6 else
  if ch = '7' then 7 else
  if ch = '8' then 8 else 9

/-- Value of a list of decimal digit characters, most significant first. -/
def decVal (l : List Char) : Nat :=
  l.foldl (fun a ch => a * 10 + charToDigit ch) 0

/-- The three textual rule-declaration forms of section 6, dispatched to the
Rule-define, Rule-override and Rule-extend actions of src/main.js. -/
inductive RuleOp where
  | defineOp
  | overrideOp
  | extendOp
deriving DecidableEq

/-- One parsed rule declaration: its operator, rule name and body tree. -/
structure RuleDecl where
  op : RuleOp
  name : String
  body : PExpr

/-- The Rule-define, Rule-override and Rule-extend actions of src/main.js
lines 189 to 200: each sets builder.currentRuleName to the rule name
immediately before the rule body is compiled, then invokes the matching
Builder operation on the compiled body. -/
def applyRuleDecl (b : Builder) (d : RuleDecl) : Except OhmError Builder :=
  let b1 : Builder := { b with currentRuleName := d.name }
  let body := (loadExpr b1.currentRuleName d.body 0).1
  match d.op with
  | .defineOp => b1.define d.name body
  | .overrideOp => b1.override d.name body
  | .extendOp => b1.extend d.name body

/-- Invariant of inline-name synthesis: compiling from counter c to counter
cc yields names that are the enclosing rule name, a dash and an ordinal drawn
from the half-open counter range, with no duplicates. -/
def SynthOk (r : String) (c cc : Nat) (ms : List String) : Prop :=
  c ≤ cc ∧ (∀ nm ∈ ms, ∃ k, c ≤ k ∧ k < cc ∧ nm = r ++ "-" ++ Nat.repr k) ∧ ms.Nodup

/-- A parsed super-grammar reference: qualified (SuperGrammar-qualified in
src/main.js line 203) or unqualified (SuperGrammar-unqualified, line 204). -/
inductive SuperRef where
  | qualified (ns g : String)
  | unqualified (g : String)

/-- One parsed grammar declaration: grammar name, optional super-grammar
reference and the ordered rule declarations. -/
structure GrammarDecl where
  name : String
  superRef : Option SuperRef
  rules : List RuleDecl

/-- Sequential application of the rule declarations to the builder, aborting
on the first failing rule (the rs evaluation of the Grammar action in
src/main.js lines 206 to 212). -/
def compileRules (b : Builder) : List RuleDecl → Except OhmError Builder
  | [] => .ok b
  | d :: ds =>
    match applyRuleDecl b d with
    | .ok b2 => compileRules b2 ds
    | .error e => .error e

/-- Super-grammar resolution, from src/main.js lines 202 to 204: a qualified
reference goes through the global namespace accessor and then getGrammar; an
unqualified reference goes through the ambient optNamespace argument, which,
when absent, is an undefined value whose method call faults. -/
def resolveSuperRef (optNs : Option Namespace) (st : Registry) :
    Option SuperRef → Except OhmError (Option Grammar) × Registry
  | none => (.ok none, st)
  | some (.qualified nsN gN) =>
    let r := namespaceOp nsN st
    (Except.map some (r.1.getGrammar gN), r.2)
  | some (.unqualified gN) =>
    match optNs with
    | some ns => (Except.map some (ns.getGrammar gN), st)
    | none => (.error .typeFault, st)

/-- The Grammar action of src/main.js lines 206 to 212: create a fresh
Builder, set its name, force the super-grammar resolution, force the rule
declarations, and finalize with build. Registration of the result into a
namespace is not performed here. -/
def compileGrammarDecl (optNs : Option Namespace) (d : GrammarDecl) (st : Registry) :
    Except OhmError Grammar × Registry :=
  match resolveSuperRef optNs st d.superRef with
  | (.error e, st2) => (.error e, st2)
  | (.ok sg, st2) =>
    match compileRules { grammarName := d.name, superGrammar := sg } d.rules with
    | .ok bf => (.ok bf.build, st2)
    | .error e => (.error e, st2)

/-- Batch compilation for the Grammars action, in declaration order,
aborting on the first failing declaration. -/
def compileGrammarDecls (optNs : Option Namespace) :
    List GrammarDecl → Registry → Except OhmError (List Grammar) × Registry
  | [], st => (.ok [], st)
  | d :: ds, st =>
    match compileGrammarDecl optNs d st with
    | (.ok g, st2) =>
      match compileGrammarDecls optNs ds st2 with
      | (.ok gs, st3) => (.ok (g :: gs), st3)
      | (.error e, st3) => (.error e, st3)
    | (.error e, st2) => (.error e, st2)

/-- The makeGrammar entry point of src/main.js lines 217 to 229: the external
grammar-declaration parser is abstracted as a function returning none exactly
on input that does not conform to the declaration syntax, in which case
compilation aborts with MalformedSourceError and nothing is produced. -/
def makeGrammar (parseGrammar : String → Option GrammarDecl) (source : String)
    (optNs : Option Namespace) (st : Registry) : Except OhmError Grammar × Registry :=
  match parseGrammar source with
  | some d => compileGrammarDecl optNs d st
  | none => (.error .MalformedSourceError, st)

/-- The makeGrammars entry point of src/main.js lines 231 to 233, batch form
of makeGrammar. -/
def makeGrammars (parseGrammars : String → Option (List GrammarDecl)) (source : String)
    (optNs : Option Namespace) (st : Registry) :
    Except OhmError (List Grammar) × Registry :=
  match parseGrammars source with
  | some ds => compileGrammarDecls optNs ds st
  | none => (.error .MalformedSourceError, st)

theorem lookupA_setA_self {α : Type} (l : List (String × α)) (n : String) (v : α) :
    lookupA (setA l n v) n = some v := by
  induction l with
  | nil => simp [setA, lookupA]
  | cons p rest ih =>
    obtain ⟨k, w⟩ := p
    by_cases h : k = n
    · simp [setA, lookupA, h]
    · simp [setA, lookupA, h, ih]

theorem lookupA_mem {α : Type} {l : List (String × α)} {n : String} {v : α}
    (h : lookupA l n = some v) : (n, v) ∈ l := by
  induction l with
  | nil => simp [lookupA] at h
  | cons p rest ih =>
    obtain ⟨k, w⟩ := p
    by_cases hk : k = n
    · subst hk
      simp [lookupA] at h
      simp [h]
    · simp [lookupA, hk] at h
      exact List.mem_cons_of_mem _ (ih h)

theorem lookupA_append_of_some {α : Type} {l : List (String × α)} {n : String} {v : α}
    (l2 : List (String × α)) (h : lookupA l n = some v) :
    lookupA (l ++ l2) n = some v := by
  induction l with
  | nil => simp [lookupA] at h
  | cons p rest ih =>
    obtain ⟨k, w⟩ := p
    by_cases hk : k = n
    · simp [lookupA, hk] at h ⊢
      exact h
    · simp [lookupA, hk] at h ⊢
      exact ih h

theorem lookupRule_of_local {b : Builder} {n : String} {e : Expression}
    (h : lookupA b.ruleSet n = some e) : b.lookupRule n = some e := by
  unfold Builder.lookupRule
  rw [h]

theorem lookupRule_of_super {b : Builder} {n : String} {g : Grammar}
    (hl : lookupA b.ruleSet n = none) (hg : b.superGrammar = some g) :
    b.lookupRule n = g.resolve n := by
  unfold Builder.lookupRule
  rw [hl, hg]

theorem alt_ne_left (x y : Expression) : Expression.Alt x y ≠ x := by
  intro h
  have hs := congrArg sizeOf h
  simp only [Expression.Alt.sizeOf_spec] at hs
  omega

/-- C1: on a Builder whose chain binds R to B, extend(R,b1) followed by
extend(R,b2) succeeds and leaves R bound to the left-nested
Alt(Alt(B,b1),b2), whose alternatives are tried in the order B, then b1,
then b2; successive extends produce strictly different bodies, so repeated
extend is not idempotent. -/
theorem extend_extend_left_nested (b : Builder) (R : String) (B b1 b2 : Expression)
    (h : b.lookupRule R = some B) :
    ∃ b' b'', b.extend R b1 = .ok b' ∧ b'.extend R b2 = .ok b'' ∧
      b'.lookupRule R = some (.Alt B b1) ∧
      b''.lookupRule R = some (.Alt (.Alt B b1) b2) ∧
      b'.lookupRule R ≠ some B ∧
      b''.lookupRule R ≠ b'.lookupRule R ∧
      (∀ m, firstAlt m (.Alt (.Alt B b1) b2) =
        ((firstAlt m B).orElse (fun _ => firstAlt m b1)).orElse
          (fun _ => firstAlt m b2)) := by
  set b' : Builder := { b with ruleSet := setA b.ruleSet R (.Alt B b1) } with hb'
  set b'' : Builder := { b' with ruleSet := setA b'.ruleSet R (.Alt (.Alt B b1) b2) } with hb''
  have h1 : b.extend R b1 = .ok b' := by
    unfold Builder.extend
    rw [h]
  have hl1 : b'.lookupRule R = some (.Alt B b1) :=
    lookupRule_of_local (lookupA_setA_self b.ruleSet R (.Alt B b1))
  have h2 : b'.extend R b2 = .ok b'' := by
    unfold Builder.extend
    rw [hl1]
  have hl2 : b''.lookupRule R = some (.Alt (.Alt B b1) b2) :=
    lookupRule_of_local (lookupA_setA_self b'.ruleSet R (.Alt (.Alt B b1) b2))
  refine ⟨b', b'', h1, h2, hl1, hl2, ?_, ?_, fun m => rfl⟩
  · rw [hl1]
    intro hcontra
    exact alt_ne_left B b1 (Option.some.inj hcontra)
  · rw [hl1, hl2]
    intro hcontra
    exact alt_ne_left (.Alt B b1) b2 (Option.some.inj hcontra)

/-- C1 witness: a concrete Builder with one local rule, extended twice. -/
theorem extend_extend_left_nested_witness :
    (Builder.lookupRule { ruleSet := [("r", .Prim (.numV 1))] } "r"
        = some (.Prim (.numV 1))) ∧
    (∃ b' b'',
      Builder.extend { ruleSet := [("r", .Prim (.numV 1))] } "r" (.Prim (.numV 2))
        = .ok b' ∧
      b'.extend "r" (.Prim (.numV 3)) = .ok b'' ∧
      b'.lookupRule "r" = some (.Alt (.Prim (.numV 1)) (.Prim (.numV 2))) ∧
      b''.lookupRule "r"
        = some (.Alt (.Alt (.Prim (.numV 1)) (.Prim (.numV 2))) (.Prim (.numV 3))) ∧
      b'.lookupRule "r" ≠ some (.Prim (.numV 1)) ∧
      b''.lookupRule "r" ≠ b'.lookupRule "r" ∧
      (∀ m, firstAlt m (.Alt (.Alt (.Prim (.numV 1)) (.Prim (.numV 2))) (.Prim (.numV 3))) =
        ((firstAlt m (.Prim (.numV 1))).orElse
            (fun _ => firstAlt m (.Prim (.numV 2)))).orElse
          (fun _ => firstAlt m (.Prim (.numV 3))))) :=
  ⟨rfl, extend_extend_left_nested _ "r" _ _ _ rfl⟩

/-- C2: on a Builder whose super-grammar chain resolves R to an ancestor body
A, override(R,b1) followed by override(R,b2) succeeds and leaves R locally
bound to exactly b2, the built grammar resolves R to b2 (the ancestor is
shadowed for name-based resolution), while the super-grammar, still reachable
from the built grammar, resolves R to the unchanged ancestor body A. -/
theorem override_override_last_wins (b : Builder) (R : String) (b1 b2 A : Expression)
    (g : Grammar) (hg : b.superGrammar = some g) (hA : g.resolve R = some A) :
    ∃ b' b'', b.override R b1 = .ok b' ∧ b'.override R b2 = .ok b'' ∧
      lookupA b''.ruleSet R = some b2 ∧
      (b''.build).resolve R = some b2 ∧
      (b''.build).superGrammar = some g ∧
      g.resolve R = some A := by
  have hlook : ∃ e, b.lookupRule R = some e := by
    cases hc : lookupA b.ruleSet R with
    | some e => exact ⟨e, lookupRule_of_local hc⟩
    | none => exact ⟨A, by rw [lookupRule_of_super hc hg, hA]⟩
  obtain ⟨e0, he0⟩ := hlook
  set b' : Builder := { b with ruleSet := setA b.ruleSet R b1 } with hb'
  set b'' : Builder := { b' with ruleSet := setA b'.ruleSet R b2 } with hb''
  have h1 : b.override R b1 = .ok b' := by
    unfold Builder.override
    rw [he0]
  have hl1 : b'.lookupRule R = some b1 :=
    lookupRule_of_local (lookupA_setA_self b.ruleSet R b1)
  have h2 : b'.override R b2 = .ok b'' := by
    unfold Builder.override
    rw [hl1]
  have hloc : lookupA b''.ruleSet R = some b2 :=
    lookupA_setA_self b'.ruleSet R b2
  refine ⟨b', b'', h1, h2, hloc, ?_, ?_, hA⟩
  · show Grammar.resolve (.mk b''.grammarName b''.ruleSet b''.superGrammar) R = some b2
    have hsg : b''.superGrammar = some g := hg
    rw [hsg]
    unfold Grammar.resolve
    rw [hloc]
  · show Grammar.superGrammar (.mk b''.grammarName b''.ruleSet b''.superGrammar) = some g
    have hsg : b''.superGrammar = some g := hg
    rw [Grammar.superGrammar, hsg]

/-- C2 witness: a Builder over a one-rule super-grammar, overridden twice. -/
theorem override_override_last_wins_witness :
    (Builder.superGrammar
        { superGrammar := some (.mk "G" [("r", .Prim (.strV "y"))] none) }
      = some (.mk "G" [("r", .Prim (.strV "y"))] none)) ∧
    (Grammar.resolve (.mk "G" [("r", .Prim (.strV "y"))] none) "r"
      = some (.Prim (.strV "y"))) ∧
    (∃ b' b'',
      Builder.override { superGrammar := some (.mk "G" [("r", .Prim (.strV "y"))] none) }
          "r" (.Prim (.strV "a")) = .ok b' ∧
      b'.override "r" (.Prim (.strV "x")) = .ok b'' ∧
      lookupA b''.ruleSet "r" = some (.Prim (.strV "x")) ∧
      (b''.build).resolve "r" = some (.Prim (.strV "x")) ∧
      (b''.build).superGrammar = some (.mk "G" [("r", .Prim (.strV "y"))] none) ∧
      Grammar.resolve (.mk "G" [("r", .Prim (.strV "y"))] none) "r"
        = some (.Prim (.strV "y"))) :=
  ⟨rfl, rfl, override_override_last_wins _ "r" _ _ _ _ rfl rfl⟩

theorem namespaceOp_name {st : Registry} (hWF : st.WF) (n : String) :
    (namespaceOp n st).1.name = n := by
  unfold namespaceOp
  cases hc : lookupA st.namespaces n with
  | some ns => exact hWF (n, ns) (lookupA_mem hc)
  | none => rfl

theorem namespaceOp_WF {st : Registry} (hWF : st.WF) (n : String) :
    (namespaceOp n st).2.WF := by
  unfold namespaceOp
  cases hc : lookupA st.namespaces n with
  | some ns => exact hWF
  | none =>
    intro p hp
    simp only [List.mem_append, List.mem_singleton] at hp
    rcases hp with hp | hp
    · exact hWF p hp
    · rw [hp]

/-- C6: the namespace accessor is get-or-create: a repeated call with the
same name returns the same Namespace instance and leaves the registry
unchanged, the returned instance carries the requested name, a first call on
an unregistered name registers exactly the fresh instance it returns, and
calls with distinct names return distinct instances. -/
theorem namespace_get_or_create (st : Registry) (hWF : st.WF) (n n2 : String)
    (hne : n2 ≠ n) :
    namespaceOp n (namespaceOp n st).2 = namespaceOp n st ∧
    (namespaceOp n st).1.name = n ∧
    (lookupA st.namespaces n = none →
      (namespaceOp n st).1 = ⟨st.nextId, n, []⟩ ∧
      lookupA (namespaceOp n st).2.namespaces n = some ⟨st.nextId, n, []⟩) ∧
    (namespaceOp n2 (namespaceOp n st).2).1 ≠ (namespaceOp n st).1 := by
  have hsome : lookupA (namespaceOp n st).2.namespaces n = some (namespaceOp n st).1 := by
    unfold namespaceOp
    cases hc : lookupA st.namespaces n with
    | some ns => exact hc
    | none =>
      show lookupA (st.namespaces ++ [(n, ⟨st.nextId, n, []⟩)]) n = _
      have : ∀ (l : List (String × Namespace)), lookupA l n = none →
          lookupA (l ++ [(n, (⟨st.nextId, n, []⟩ : Namespace))]) n
            = some ⟨st.nextId, n, []⟩ := by
        intro l hl
        induction l with
        | nil => simp [lookupA]
        | cons p rest ih =>
          obtain ⟨k, w⟩ := p
          by_cases hk : k = n
          · simp [lookupA, hk] at hl
          · simp [lookupA, hk] at hl ⊢
            exact ih hl
      exact this st.namespaces hc
  refine ⟨?_, namespaceOp_name hWF n, ?_, ?_⟩
  · rcases hp : namespaceOp n st with ⟨ns1, st1⟩
    rw [hp] at hsome
    have hsome2 : lookupA st1.namespaces n = some ns1 := by simpa using hsome
    show namespaceOp n st1 = (ns1, st1)
    unfold namespaceOp
    rw [hsome2]
  · intro hc
    constructor
    · unfold namespaceOp
      rw [hc]
    · have h1 : (namespaceOp n st).1 = ⟨st.nextId, n, []⟩ := by
        unfold namespaceOp
        rw [hc]
      rw [← h1]
      exact hsome
  · intro hcontra
    have hn2 : (namespaceOp n2 (namespaceOp n st).2).1.name = n2 :=
      namespaceOp_name (namespaceOp_WF hWF n) n2
    have hn1 : (namespaceOp n st).1.name = n := namespaceOp_name hWF n
    rw [hcontra, hn1] at hn2
    exact hne hn2.symm

/-- C6 witness: an empty registry, queried for ns1 twice and then ns2. -/
theorem namespace_get_or_create_witness :
    Registry.WF ⟨[], 0⟩ ∧ ("ns2" : String) ≠ "ns1" ∧
    (namespaceOp "ns1" (namespaceOp "ns1" ⟨[], 0⟩).2 = namespaceOp "ns1" ⟨[], 0⟩ ∧
     (namespaceOp "ns1" ⟨[], 0⟩).1.name = "ns1" ∧
     (lookupA (Registry.namespaces ⟨[], 0⟩) "ns1" = none →
       (namespaceOp "ns1" ⟨[], 0⟩).1 = ⟨0, "ns1", []⟩ ∧
       lookupA (namespaceOp "ns1" ⟨[], 0⟩).2.namespaces "ns1" = some ⟨0, "ns1", []⟩) ∧
     (namespaceOp "ns2" (namespaceOp "ns1" ⟨[], 0⟩).2).1 ≠ (namespaceOp "ns1" ⟨[], 0⟩).1) :=
  ⟨fun p hp => by simp at hp, by decide,
    namespace_get_or_create ⟨[], 0⟩ (fun p hp => by simp at hp) "ns1" "ns2" (by decide)⟩

/-- C9: resolving a qualified reference ns.g when no namespace named ns is
registered first creates and permanently registers a fresh empty Namespace
under ns, growing the registry, and then fails with UnknownGrammarError for
the grammar name g; any failure of qualified resolution is an
UnknownGrammarError for the grammar name, never a fault on the namespace
name. -/
theorem qualified_ref_registers_namespace (st : Registry) (nsN gN : String)
    (h : lookupA st.namespaces nsN = none) :
    resolveQualified nsN gN st =
      (.error (.UnknownGrammarError gN),
       ⟨st.namespaces ++ [(nsN, ⟨st.nextId, nsN, []⟩)], st.nextId + 1⟩) ∧
    lookupA (resolveQualified nsN gN st).2.namespaces nsN
      = some ⟨st.nextId, nsN, []⟩ ∧
    (∀ (st2 : Registry) (e : OhmError),
      (resolveQualified nsN gN st2).1 = .error e → e = .UnknownGrammarError gN) := by
  have hop : namespaceOp nsN st = (⟨st.nextId, nsN, []⟩,
      ⟨st.namespaces ++ [(nsN, ⟨st.nextId, nsN, []⟩)], st.nextId + 1⟩) := by
    unfold namespaceOp
    rw [h]
  refine ⟨?_, ?_, ?_⟩
  · unfold resolveQualified
    rw [hop]
    rfl
  · unfold resolveQualified
    rw [hop]
    show lookupA (st.namespaces ++ [(nsN, ⟨st.nextId, nsN, []⟩)]) nsN = _
    have : ∀ (l : List (String × Namespace)), lookupA l nsN = none →
        lookupA (l ++ [(nsN, (⟨st.nextId, nsN, []⟩ : Namespace))]) nsN
          = some ⟨st.nextId, nsN, []⟩ := by
      intro l hl
      induction l with
      | nil => simp [lookupA]
      | cons p rest ih =>
        obtain ⟨k, w⟩ := p
        by_cases hk : k = nsN
        · simp [lookupA, hk] at hl
        · simp [lookupA, hk] at hl ⊢
          exact ih hl
    exact this st.namespaces h
  · intro st2 e he
    have he' : (namespaceOp nsN st2).1.getGrammar gN = .error e := he
    unfold Namespace.getGrammar at he'
    cases hc : lookupA (namespaceOp nsN st2).1.grammars gN with
    | some g =>
      rw [hc] at he'
      cases he'
    | none =>
      rw [hc] at he'
      exact (Except.error.inj he').symm

/-- C9 witness: an empty registry and the reference myns.g. -/
theorem qualified_ref_registers_namespace_witness :
    lookupA (Registry.namespaces ⟨[], 0⟩) "myns" = none ∧
    (resolveQualified "myns" "g" ⟨[], 0⟩ =
      (.error (.UnknownGrammarError "g"), ⟨[("myns", ⟨0, "myns", []⟩)], 1⟩) ∧
     lookupA (resolveQualified "myns" "g" ⟨[], 0⟩).2.namespaces "myns"
       = some ⟨0, "myns", []⟩ ∧
     (∀ (st2 : Registry) (e : OhmError),
       (resolveQualified "myns" "g" st2).1 = .error e → e = .UnknownGrammarError "g")) :=
  ⟨rfl, by
    have h := qualified_ref_registers_namespace ⟨[], 0⟩ "myns" "g" rfl
    simpa using h⟩

/-- C8: the loader maps postfix star to Many(e,0), postfix plus to Many(e,1),
postfix question mark to Opt(e), the negation marker to Not(e), the lookahead
marker to Lookahead(e), a bare identifier to App(r), and a trailing binding
suffix to Bind(e,name), in each case translating the sub-expression in
place. -/
theorem surface_translation (r : String) (x : PExpr) (c : Nat) (n : String) :
    (loadExpr r (.star x) c).1 = .Many (loadExpr r x c).1 0 ∧
    (loadExpr r (.plus x) c).1 = .Many (loadExpr r x c).1 1 ∧
    (loadExpr r (.opt x) c).1 = .Opt (loadExpr r x c).1 ∧
    (loadExpr r (.not x) c).1 = .Not (loadExpr r x c).1 ∧
    (loadExpr r (.la x) c).1 = .Lookahead (loadExpr r x c).1 ∧
    (loadExpr r (.app n) c).1 = .App n ∧
    (loadExpr r (.bind x n) c).1 = .Bind (loadExpr r x c).1 n :=
  ⟨rfl, rfl, rfl, rfl, rfl, rfl, rfl⟩

theorem charToDigit_digitChar {d : Nat} (h : d < 10) :
    charToDigit (Nat.digitChar d) = d := by
  interval_cases d <;> decide

theorem decVal_append_singleton (l : List Char) (ch : Char) :
    decVal (l ++ [ch]) = decVal l * 10 + charToDigit ch := by
  unfold decVal
  rw [List.foldl_append]
  rfl

theorem toDigitsCore_append (f n : Nat) (l : List Char) :
    Nat.toDigitsCore 10 f n l = Nat.toDigitsCore 10 f n [] ++ l := by
  induction f generalizing n l with
  | zero => simp [Nat.toDigitsCore]
  | succ f ih =>
    simp only [Nat.toDigitsCore]
    by_cases h : n / 10 = 0
    · simp [h]
    · simp only [h, if_false]
      rw [ih (n / 10) (Nat.digitChar (n % 10) :: l), ih (n / 10) [Nat.digitChar (n % 10)]]
      simp

theorem decVal_toDigitsCore (f n : Nat) (h : n < f) :
    decVal (Nat.toDigitsCore 10 f n []) = n := by
  induction f generalizing n with
  | zero => omega
  | succ f ih =>
    simp only [Nat.toDigitsCore]
    by_cases h0 : n / 10 = 0
    · have hn : n < 10 := by omega
      simp only [h0, if_true]
      show decVal ([] ++ [Nat.digitChar (n % 10)]) = n
      rw [decVal_append_singleton]
      rw [charToDigit_digitChar (Nat.mod_lt n (by norm_num))]
      unfold decVal
      simp
      omega
    · have h1 : n / 10 < f := by
        have h2 : n / 10 < n := Nat.div_lt_self (by omega) (by norm_num)
        omega
      simp only [h0, if_false]
      rw [toDigitsCore_append]
      rw [decVal_append_singleton]
      rw [ih (n / 10) h1]
      rw [charToDigit_digitChar (Nat.mod_lt n (by norm_num))]
      omega

theorem nat_repr_injective {m n : Nat} (h : Nat.repr m = Nat.repr n) : m = n := by
  have hm := decVal_toDigitsCore (m + 1) m (Nat.lt_succ_self m)
  have hn := decVal_toDigitsCore (n + 1) n (Nat.lt_succ_self n)
  unfold Nat.repr Nat.toDigits at h
  have hdata : Nat.toDigitsCore 10 (m + 1) m [] = Nat.toDigitsCore 10 (n + 1) n [] := by
    have := congrArg String.data h
    simpa [List.asString] using this
  rw [← hm, ← hn, hdata]

theorem synthName_injective (r : String) {k1 k2 : Nat}
    (h : r ++ "-" ++ Nat.repr k1 = r ++ "-" ++ Nat.repr k2) : k1 = k2 := by
  have hdata := congrArg String.data h
  simp only [String.data_append] at hdata
  have hrepr : (Nat.repr k1).data = (Nat.repr k2).data :=
    List.append_cancel_left hdata
  exact nat_repr_injective (by
    cases hr1 : Nat.repr k1 with
    | mk d1 =>
      cases hr2 : Nat.repr k2 with
      | mk d2 =>
        rw [hr1, hr2] at hrepr
        simp at hrepr
        rw [hrepr])

theorem SynthOk.empty (r : String) (c : Nat) : SynthOk r c c [] :=
  ⟨le_refl c, by simp, List.nodup_nil⟩

theorem SynthOk.append {r : String} {c1 c2 c3 : Nat} {ms1 ms2 : List String}
    (h1 : SynthOk r c1 c2 ms1) (h2 : SynthOk r c2 c3 ms2) :
    SynthOk r c1 c3 (ms1 ++ ms2) := by
  obtain ⟨hle1, hmem1, hnd1⟩ := h1
  obtain ⟨hle2, hmem2, hnd2⟩ := h2
  refine ⟨le_trans hle1 hle2, ?_, ?_⟩
  · intro nm hnm
    rcases List.mem_append.mp hnm with hmm | hmm
    · obtain ⟨k, hk1, hk2, hk3⟩ := hmem1 nm hmm
      exact ⟨k, hk1, lt_of_lt_of_le hk2 hle2, hk3⟩
    · obtain ⟨k, hk1, hk2, hk3⟩ := hmem2 nm hmm
      exact ⟨k, le_trans hle1 hk1, hk2, hk3⟩
  · rw [List.nodup_append]
    refine ⟨hnd1, hnd2, ?_⟩
    intro nm hin1 hin2
    obtain ⟨k1, ha1, ha2, ha3⟩ := hmem1 nm hin1
    obtain ⟨k2, hb1, hb2, hb3⟩ := hmem2 nm hin2
    have hkk : k1 = k2 := synthName_injective r (by rw [← ha3, ← hb3])
    omega

theorem SynthOk.snoc {r : String} {c c1 : Nat} {ms : List String}
    (h : SynthOk r c c1 ms) :
    SynthOk r c (c1 + 1) (ms ++ [r ++ "-" ++ Nat.repr c1]) := by
  apply h.append
  refine ⟨Nat.le_succ c1, ?_, List.nodup_singleton _⟩
  intro nm hnm
  simp at hnm
  exact ⟨c1, le_refl c1, Nat.lt_succ_self c1, hnm⟩

mutual
theorem loadExpr_synth (r : String) : ∀ (t : PExpr) (c : Nat),
    SynthOk r c (loadExpr r t c).2.1 (loadExpr r t c).2.2
  | .alt x y, c =>
    (loadExpr_synth r x c).append (loadExpr_synth r y (loadExpr r x c).2.1)
  | .inline x, c => (loadExpr_synth r x c).snoc
  | .seq es, c => loadList_synth r es c
  | .bind x n, c => loadExpr_synth r x c
  | .star x, c => loadExpr_synth r x c
  | .plus x, c => loadExpr_synth r x c
  | .opt x, c => loadExpr_synth r x c
  | .not x, c => loadExpr_synth r x c
  | .la x, c => loadExpr_synth r x c
  | .app n, c => SynthOk.empty r c
  | .prim v, c => SynthOk.empty r c
  | .lst x, c => loadExpr_synth r x c
  | .str x, c => loadExpr_synth r x c
  | .paren x, c => loadExpr_synth r x c
  | .obj ps lenient, c => loadProps_synth r ps c

theorem loadList_synth (r : String) : ∀ (es : List PExpr) (c : Nat),
    SynthOk r c (loadList r es c).2.1 (loadList r es c).2.2
  | [], c => SynthOk.empty r c
  | x :: xs, c =>
    (loadExpr_synth r x c).append (loadList_synth r xs (loadExpr r x c).2.1)

theorem loadProps_synth (r : String) : ∀ (ps : List (String × PExpr)) (c : Nat),
    SynthOk r c (loadProps r ps c).2.1 (loadProps r ps c).2.2
  | [], c => SynthOk.empty r c
  | (n, p) :: ps, c =>
    (loadExpr_synth r p c).append (loadProps_synth r ps (loadExpr r p c).2.1)
end

mutual
theorem loadExpr_name_free (r1 r2 : String) : ∀ (t : PExpr) (c : Nat),
    (loadExpr r1 t c).2.2 = [] → loadExpr r1 t c = loadExpr r2 t c
  | .alt x y, c => fun h => by
    have hm := List.append_eq_nil.mp h
    have h1 := loadExpr_name_free r1 r2 x c hm.1
    have h2 := loadExpr_name_free r1 r2 y (loadExpr r1 x c).2.1 hm.2
    show (Expression.Alt (loadExpr r1 x c).1 (loadExpr r1 y (loadExpr r1 x c).2.1).1,
        (loadExpr r1 y (loadExpr r1 x c).2.1).2.1,
        (loadExpr r1 x c).2.2 ++ (loadExpr r1 y (loadExpr r1 x c).2.1).2.2) =
      (Expression.Alt (loadExpr r2 x c).1 (loadExpr r2 y (loadExpr r2 x c).2.1).1,
        (loadExpr r2 y (loadExpr r2 x c).2.1).2.1,
        (loadExpr r2 x c).2.2 ++ (loadExpr r2 y (loadExpr r2 x c).2.1).2.2)
    rw [h2, h1]
  | .inline x, c => fun h =>
    absurd (List.append_eq_nil.mp h).2 (List.cons_ne_nil _ _)
  | .seq es, c => fun h => by
    have h1 := loadList_name_free r1 r2 es c h
    show (Expression.Seq (loadList r1 es c).1, (loadList r1 es c).2.1,
        (loadList r1 es c).2.2) =
      (Expression.Seq (loadList r2 es c).1, (loadList r2 es c).2.1,
        (loadList r2 es c).2.2)
    rw [h1]
  | .bind x n, c => fun h => by
    have h1 := loadExpr_name_free r1 r2 x c h
    show (Expression.Bind (loadExpr r1 x c).1 n, (loadExpr r1 x c).2.1,
        (loadExpr r1 x c).2.2) =
      (Expression.Bind (loadExpr r2 x c).1 n, (loadExpr r2 x c).2.1,
        (loadExpr r2 x c).2.2)
    rw [h1]
  | .star x, c => fun h => by
    have h1 := loadExpr_name_free r1 r2 x c h
    show (Expression.Many (loadExpr r1 x c).1 0, (loadExpr r1 x c).2.1,
        (loadExpr r1 x c).2.2) =
      (Expression.Many (loadExpr r2 x c).1 0, (loadExpr r2 x c).2.1,
        (loadExpr r2 x c).2.2)
    rw [h1]
  | .plus x, c => fun h => by
    have h1 := loadExpr_name_free r1 r2 x c h
    show (Expression.Many (loadExpr r1 x c).1 1, (loadExpr r1 x c).2.1,
        (loadExpr r1 x c).2.2) =
      (Expression.Many (loadExpr r2 x c).1 1, (loadExpr r2 x c).2.1,
        (loadExpr r2 x c).2.2)
    rw [h1]
  | .opt x, c => fun h => by
    have h1 := loadExpr_name_free r1 r2 x c h
    show (Expression.Opt (loadExpr r1 x c).1, (loadExpr r1 x c).2.1,
        (loadExpr r1 x c).2.2) =
      (Expression.Opt (loadExpr r2 x c).1, (loadExpr r2 x c).2.1,
        (loadExpr r2 x c).2.2)
    rw [h1]
  | .not x, c => fun h => by
    have h1 := loadExpr_name_free r1 r2 x c h
    show (Expression.Not (loadExpr r1 x c).1, (loadExpr r1 x c).2.1,
        (loadExpr r1 x c).2.2) =
      (Expression.Not (loadExpr r2 x c).1, (loadExpr r2 x c).2.1,
        (loadExpr r2 x c).2.2)
    rw [h1]
  | .la x, c => fun h => by
    have h1 := loadExpr_name_free r1 r2 x c h
    show (Expression.Lookahead (loadExpr r1 x c).1, (loadExpr r1 x c).2.1,
        (loadExpr r1 x c).2.2) =
      (Expression.Lookahead (loadExpr r2 x c).1, (loadExpr r2 x c).2.1,
        (loadExpr r2 x c).2.2)
    rw [h1]
  | .app n, c => fun _ => rfl
  | .prim v, c => fun _ => rfl
  | .lst x, c => fun h => by
    have h1 := loadExpr_name_free r1 r2 x c h
    show (Expression.Lst (loadExpr r1 x c).1, (loadExpr r1 x c).2.1,
        (loadExpr r1 x c).2.2) =
      (Expression.Lst (loadExpr r2 x c).1, (loadExpr r2 x c).2.1,
        (loadExpr r2 x c).2.2)
    rw [h1]
  | .str x, c => fun h => by
    have h1 := loadExpr_name_free r1 r2 x c h
    show (Expression.Str (loadExpr r1 x c).1, (loadExpr r1 x c).2.1,
        (loadExpr r1 x c).2.2) =
      (Expression.Str (loadExpr r2 x c).1, (loadExpr r2 x c).2.1,
        (loadExpr r2 x c).2.2)
    rw [h1]
  | .paren x, c => fun h => loadExpr_name_free r1 r2 x c h
  | .obj ps lenient, c => fun h => by
    have h1 := loadProps_name_free r1 r2 ps c h
    show (Expression.Obj (loadProps r1 ps c).1 lenient, (loadProps r1 ps c).2.1,
        (loadProps r1 ps c).2.2) =
      (Expression.Obj (loadProps r2 ps c).1 lenient, (loadProps r2 ps c).2.1,
        (loadProps r2 ps c).2.2)
    rw [h1]

theorem loadList_name_free (r1 r2 : String) : ∀ (es : List PExpr) (c : Nat),
    (loadList r1 es c).2.2 = [] → loadList r1 es c = loadList r2 es c
  | [], c => fun _ => rfl
  | x :: xs, c => fun h => by
    have hm := List.append_eq_nil.mp h
    have h1 := loadExpr_name_free r1 r2 x c hm.1
    have h2 := loadList_name_free r1 r2 xs (loadExpr r1 x c).2.1 hm.2
    show ((loadExpr r1 x c).1 :: (loadList r1 xs (loadExpr r1 x c).2.1).1,
        (loadList r1 xs (loadExpr r1 x c).2.1).2.1,
        (loadExpr r1 x c).2.2 ++ (loadList r1 xs (loadExpr r1 x c).2.1).2.2) =
      ((loadExpr r2 x c).1 :: (loadList r2 xs (loadExpr r2 x c).2.1).1,
        (loadList r2 xs (loadExpr r2 x c).2.1).2.1,
        (loadExpr r2 x c).2.2 ++ (loadList r2 xs (loadExpr r2 x c).2.1).2.2)
    rw [h2, h1]

theorem loadProps_name_free (r1 r2 : String) :
    ∀ (ps : List (String × PExpr)) (c : Nat),
    (loadProps r1 ps c).2.2 = [] → loadProps r1 ps c = loadProps r2 ps c
  | [], c => fun _ => rfl
  | (n, p) :: ps, c => fun h => by
    have hm := List.append_eq_nil.mp h
    have h1 := loadExpr_name_free r1 r2 p c hm.1
    have h2 := loadProps_name_free r1 r2 ps (loadExpr r1 p c).2.1 hm.2
    show ((n, (loadExpr r1 p c).1) :: (loadProps r1 ps (loadExpr r1 p c).2.1).1,
        (loadProps r1 ps (loadExpr r1 p c).2.1).2.1,
        (loadExpr r1 p c).2.2 ++ (loadProps r1 ps (loadExpr r1 p c).2.1).2.2) =
      ((n, (loadExpr r2 p c).1) :: (loadProps r2 ps (loadExpr r2 p c).2.1).1,
        (loadProps r2 ps (loadExpr r2 p c).2.1).2.1,
        (loadExpr r2 p c).2.2 ++ (loadProps r2 ps (loadExpr r2 p c).2.1).2.2)
    rw [h2, h1]
end

theorem applyRuleDecl_currentRuleName {b b' : Builder} {d : RuleDecl}
    (h : applyRuleDecl b d = .ok b') : b'.currentRuleName = d.name := by
  obtain ⟨op, nm, bd⟩ := d
  cases op with
  | defineOp =>
    have h' : Builder.define { b with currentRuleName := nm } nm
        (loadExpr nm bd 0).1 = .ok b' := h
    unfold Builder.define at h'
    cases hc : lookupA (Builder.ruleSet { b with currentRuleName := nm }) nm with
    | some e =>
      rw [hc] at h'
      cases h'
    | none =>
      rw [hc] at h'
      cases h'
      rfl
  | overrideOp =>
    have h' : Builder.override { b with currentRuleName := nm } nm
        (loadExpr nm bd 0).1 = .ok b' := h
    unfold Builder.override at h'
    cases hc : Builder.lookupRule { b with currentRuleName := nm } nm with
    | some e =>
      rw [hc] at h'
      cases h'
      rfl
    | none =>
      rw [hc] at h'
      cases h'
  | extendOp =>
    have h' : Builder.extend { b with currentRuleName := nm } nm
        (loadExpr nm bd 0).1 = .ok b' := h
    unfold Builder.extend at h'
    cases hc : Builder.lookupRule { b with currentRuleName := nm } nm with
    | some e =>
      rw [hc] at h'
      cases h'
      rfl
    | none =>
      rw [hc] at h'
      cases h'

/-- C4: every inline rule synthesized while compiling a rule named R gets a
name of the form R, dash, ordinal; the synthesized names of one enclosing
rule are pairwise distinct; the rule action stores the rule name into the
currentRuleName scratch field before the body is compiled, so it equals the
rule name on the resulting builder; and the field influences nothing but the
synthesized names: a body creating no inline rule compiles identically under
any currentRuleName. -/
theorem inline_name_synthesis (b b' : Builder) (d : RuleDecl)
    (h : applyRuleDecl b d = .ok b') :
    b'.currentRuleName = d.name ∧
    (∀ nm ∈ (loadExpr d.name d.body 0).2.2, ∃ k, nm = d.name ++ "-" ++ Nat.repr k) ∧
    (loadExpr d.name d.body 0).2.2.Nodup ∧
    ((loadExpr d.name d.body 0).2.2 = [] →
      ∀ r2, loadExpr r2 d.body 0 = loadExpr d.name d.body 0) := by
  refine ⟨applyRuleDecl_currentRuleName h, ?_, ?_, ?_⟩
  · intro nm hnm
    obtain ⟨k, _, _, hk⟩ := (loadExpr_synth d.name d.body 0).2.1 nm hnm
    exact ⟨k, hk⟩
  · exact (loadExpr_synth d.name d.body 0).2.2
  · intro hempty r2
    exact (loadExpr_name_free d.name r2 d.body 0 hempty).symm

/-- C4 witness: defining addExpr with two inline alternatives synthesizes the
names addExpr-0 and addExpr-1. -/
theorem inline_name_synthesis_witness :
    (applyRuleDecl {}
        ⟨.defineOp, "addExpr", .alt (.inline (.app "x")) (.inline (.app "y"))⟩
      = .ok
        { currentRuleName := "addExpr",
          ruleSet := [("addExpr",
            .Alt (.Inline "addExpr-0" (.App "x")) (.Inline "addExpr-1" (.App "y")))] }) ∧
    (Builder.currentRuleName
        { currentRuleName := "addExpr",
          ruleSet := [("addExpr",
            .Alt (.Inline "addExpr-0" (.App "x")) (.Inline "addExpr-1" (.App "y")))] }
      = "addExpr" ∧
     (∀ nm ∈ (loadExpr "addExpr" (.alt (.inline (.app "x")) (.inline (.app "y"))) 0).2.2,
        ∃ k, nm = "addExpr" ++ "-" ++ Nat.repr k) ∧
     (loadExpr "addExpr" (.alt (.inline (.app "x")) (.inline (.app "y"))) 0).2.2.Nodup ∧
     ((loadExpr "addExpr" (.alt (.inline (.app "x")) (.inline (.app "y"))) 0).2.2 = [] →
       ∀ r2, loadExpr r2 (.alt (.inline (.app "x")) (.inline (.app "y"))) 0
         = loadExpr "addExpr" (.alt (.inline (.app "x")) (.inline (.app "y"))) 0)) :=
  ⟨rfl,
    inline_name_synthesis {}
      { currentRuleName := "addExpr",
        ruleSet := [("addExpr",
          .Alt (.Inline "addExpr-0" (.App "x")) (.Inline "addExpr-1" (.App "y")))] }
      ⟨.defineOp, "addExpr", .alt (.inline (.app "x")) (.inline (.app "y"))⟩
      rfl⟩

theorem applyRuleDecl_preserves {b b2 : Builder} {d : RuleDecl}
    (h : applyRuleDecl b d = .ok b2) :
    b2.grammarName = b.grammarName ∧ b2.superGrammar = b.superGrammar := by
  obtain ⟨op, nm, bd⟩ := d
  cases op with
  | defineOp =>
    have h' : Builder.define { b with currentRuleName := nm } nm
        (loadExpr nm bd 0).1 = .ok b2 := h
    unfold Builder.define at h'
    cases hc : lookupA (Builder.ruleSet { b with currentRuleName := nm }) nm with
    | some e =>
      rw [hc] at h'
      cases h'
    | none =>
      rw [hc] at h'
      cases h'
      exact ⟨rfl, rfl⟩
  | overrideOp =>
    have h' : Builder.override { b with currentRuleName := nm } nm
        (loadExpr nm bd 0).1 = .ok b2 := h
    unfold Builder.override at h'
    cases hc : Builder.lookupRule { b with currentRuleName := nm } nm with
    | some e =>
      rw [hc] at h'
      cases h'
      exact ⟨rfl, rfl⟩
    | none =>
      rw [hc] at h'
      cases h'
  | extendOp =>
    have h' : Builder.extend { b with currentRuleName := nm } nm
        (loadExpr nm bd 0).1 = .ok b2 := h
    unfold Builder.extend at h'
    cases hc : Builder.lookupRule { b with currentRuleName := nm } nm with
    | some e =>
      rw [hc] at h'
      cases h'
      exact ⟨rfl, rfl⟩
    | none =>
      rw [hc] at h'
      cases h'

theorem compileRules_preserves {ds : List RuleDecl} :
    ∀ {b bf : Builder}, compileRules b ds = .ok bf →
    bf.grammarName = b.grammarName ∧ bf.superGrammar = b.superGrammar := by
  induction ds with
  | nil =>
    intro b bf h
    cases h
    exact ⟨rfl, rfl⟩
  | cons d ds ih =>
    intro b bf h
    unfold compileRules at h
    cases ha : applyRuleDecl b d with
    | error e =>
      rw [ha] at h
      cases h
    | ok b2 =>
      rw [ha] at h
      obtain ⟨h1, h2⟩ := ih h
      obtain ⟨h3, h4⟩ := applyRuleDecl_preserves ha
      exact ⟨h1.trans h3, h2.trans h4⟩

theorem resolveSuperRef_frame (optNs : Option Namespace) (st : Registry)
    (sr : Option SuperRef) (k : String) (ns0 : Namespace)
    (h : lookupA st.namespaces k = some ns0) :
    lookupA (resolveSuperRef optNs st sr).2.namespaces k = some ns0 := by
  cases sr with
  | none => exact h
  | some s =>
    cases s with
    | qualified nsN gN =>
      show lookupA (namespaceOp nsN st).2.namespaces k = some ns0
      unfold namespaceOp
      cases hc : lookupA st.namespaces nsN with
      | some ns => exact h
      | none => exact lookupA_append_of_some _ h
    | unqualified gN =>
      cases optNs with
      | some ns => exact h
      | none => exact h

theorem compileGrammarDecl_registry (optNs : Option Namespace) (d : GrammarDecl)
    (st : Registry) :
    (compileGrammarDecl optNs d st).2 = (resolveSuperRef optNs st d.superRef).2 := by
  unfold compileGrammarDecl
  rcases hr : resolveSuperRef optNs st d.superRef with ⟨res, st2⟩
  cases res with
  | error e => rfl
  | ok sg =>
    show (match compileRules { grammarName := d.name, superGrammar := sg } d.rules with
      | .ok bf => ((.ok bf.build : Except OhmError Grammar), st2)
      | .error e => (.error e, st2)).2 = st2
    cases compileRules { grammarName := d.name, superGrammar := sg } d.rules <;> rfl

/-- C3: define fails with DuplicateRuleError exactly when the name is already
in the local rule set; override and extend fail with UndefinedRuleError
exactly when the name is absent locally and along the whole super-grammar
chain; and when the rule stream of a declaration fails, compilation returns
that error and no Grammar, with the registry untouched. -/
theorem rule_action_error_conditions :
    (∀ (b : Builder) (n : String) (e : Expression),
      b.define n e = .error (.DuplicateRuleError n) ↔ (lookupA b.ruleSet n).isSome) ∧
    (∀ (b : Builder) (n : String) (e : Expression),
      b.override n e = .error (.UndefinedRuleError n) ↔ b.lookupRule n = none) ∧
    (∀ (b : Builder) (n : String) (e : Expression),
      b.extend n e = .error (.UndefinedRuleError n) ↔ b.lookupRule n = none) ∧
    (∀ (optNs : Option Namespace) (d : GrammarDecl) (st st2 : Registry)
        (sg : Option Grammar) (err : OhmError),
      resolveSuperRef optNs st d.superRef = (.ok sg, st2) →
      compileRules { grammarName := d.name, superGrammar := sg } d.rules = .error err →
      compileGrammarDecl optNs d st = (.error err, st2)) := by
  refine ⟨?_, ?_, ?_, ?_⟩
  · intro b n e
    cases hc : lookupA b.ruleSet n <;> simp [Builder.define, hc]
  · intro b n e
    cases hc : b.lookupRule n <;> simp [Builder.override, hc]
  · intro b n e
    cases hc : b.lookupRule n <;> simp [Builder.extend, hc]
  · intro optNs d st st2 sg err hres hrules
    unfold compileGrammarDecl
    rw [hres]
    show (match compileRules { grammarName := d.name, superGrammar := sg } d.rules with
      | .ok bf => ((.ok bf.build : Except OhmError Grammar), st2)
      | .error e => (.error e, st2)) = (.error err, st2)
    rw [hrules]

/-- C3 witness: duplicate define, undefined override and extend, and a
declaration whose override of an undefined rule aborts compilation. -/
theorem rule_action_error_conditions_witness :
    ((lookupA (Builder.ruleSet { ruleSet := [("r", .App "x")] }) "r").isSome) ∧
    (Builder.lookupRule {} "r" = none) ∧
    (Builder.define { ruleSet := [("r", .App "x")] } "r" (.App "y")
      = .error (.DuplicateRuleError "r")) ∧
    (Builder.override {} "r" (.App "y") = .error (.UndefinedRuleError "r")) ∧
    (Builder.extend {} "r" (.App "y") = .error (.UndefinedRuleError "r")) ∧
    (compileGrammarDecl none ⟨"G", none, [⟨.overrideOp, "r", .app "x"⟩]⟩ ⟨[], 0⟩
      = (.error (.UndefinedRuleError "r"), ⟨[], 0⟩)) :=
  ⟨rfl, rfl,
    (rule_action_error_conditions.1 { ruleSet := [("r", .App "x")] } "r" (.App "y")).mpr rfl,
    (rule_action_error_conditions.2.1 {} "r" (.App "y")).mpr rfl,
    (rule_action_error_conditions.2.2.1 {} "r" (.App "y")).mpr rfl,
    rule_action_error_conditions.2.2.2 none ⟨"G", none, [⟨.overrideOp, "r", .app "x"⟩]⟩
      ⟨[], 0⟩ ⟨[], 0⟩ none (.UndefinedRuleError "r") rfl rfl⟩

/-- C5: a successful compilation returns the Grammar value assembled from the
final accumulated rule set, the declared name and the resolved super-grammar,
and it changes no existing namespace entry of the registry: in particular the
supplied namespace keeps its name-to-Grammar mapping, so registering the
result is left to the caller. -/
theorem build_assembles_without_registration (optNs : Option Namespace)
    (d : GrammarDecl) (st : Registry) (G : Grammar)
    (h : (compileGrammarDecl optNs d st).1 = .ok G) :
    (∃ sg bf,
      resolveSuperRef optNs st d.superRef = (.ok sg, (compileGrammarDecl optNs d st).2) ∧
      compileRules { grammarName := d.name, superGrammar := sg } d.rules = .ok bf ∧
      G = Grammar.mk bf.grammarName bf.ruleSet bf.superGrammar ∧
      G.name = d.name ∧ G.superGrammar = sg) ∧
    (∀ (k : String) (ns0 : Namespace), lookupA st.namespaces k = some ns0 →
      lookupA (compileGrammarDecl optNs d st).2.namespaces k = some ns0) := by
  have hreg : (compileGrammarDecl optNs d st).2 = (resolveSuperRef optNs st d.superRef).2 :=
    compileGrammarDecl_registry optNs d st
  constructor
  · rcases hr : resolveSuperRef optNs st d.superRef with ⟨res, st2⟩
    unfold compileGrammarDecl at h
    rw [hr] at h
    cases res with
    | error e => cases h
    | ok sg =>
      have h2 : (match compileRules { grammarName := d.name, superGrammar := sg } d.rules with
        | .ok bf => ((.ok bf.build : Except OhmError Grammar), st2)
        | .error e => (.error e, st2)).1 = .ok G := h
      cases hcr : compileRules { grammarName := d.name, superGrammar := sg } d.rules with
      | error e =>
        rw [hcr] at h2
        cases h2
      | ok bf =>
        rw [hcr] at h2
        have hg : G = bf.build := (Except.ok.inj h2).symm
        obtain ⟨hn, hs⟩ := compileRules_preserves hcr
        refine ⟨sg, bf, ?_, hcr, hg, ?_, ?_⟩
        · rw [hreg, hr]
        · rw [hg]
          show bf.grammarName = d.name
          exact hn
        · rw [hg]
          show bf.superGrammar = sg
          exact hs
  · intro k ns0 hk
    rw [hreg]
    exact resolveSuperRef_frame optNs st d.superRef k ns0 hk

/-- C5 witness: a one-rule declaration compiled against a registry holding an
unrelated namespace, which is left untouched. -/
theorem build_assembles_without_registration_witness :
    ((compileGrammarDecl none ⟨"G", none, [⟨.defineOp, "r", .app "x"⟩]⟩
        ⟨[("a", ⟨5, "a", []⟩)], 7⟩).1 = .ok (.mk "G" [("r", .App "x")] none)) ∧
    ((∃ sg bf,
      resolveSuperRef none ⟨[("a", ⟨5, "a", []⟩)], 7⟩ (GrammarDecl.superRef ⟨"G", none, [⟨.defineOp, "r", .app "x"⟩]⟩) =
        (.ok sg, (compileGrammarDecl none ⟨"G", none, [⟨.defineOp, "r", .app "x"⟩]⟩
          ⟨[("a", ⟨5, "a", []⟩)], 7⟩).2) ∧
      compileRules { grammarName := "G", superGrammar := sg }
          [⟨.defineOp, "r", .app "x"⟩] = .ok bf ∧
      Grammar.mk "G" [("r", .App "x")] none
        = Grammar.mk bf.grammarName bf.ruleSet bf.superGrammar ∧
      Grammar.name (.mk "G" [("r", .App "x")] none) = "G" ∧
      Grammar.superGrammar (.mk "G" [("r", .App "x")] none) = sg) ∧
    (∀ (k : String) (ns0 : Namespace),
      lookupA (Registry.namespaces ⟨[("a", ⟨5, "a", []⟩)], 7⟩) k = some ns0 →
      lookupA (compileGrammarDecl none ⟨"G", none, [⟨.defineOp, "r", .app "x"⟩]⟩
        ⟨[("a", ⟨5, "a", []⟩)], 7⟩).2.namespaces k = some ns0)) :=
  ⟨rfl,
    build_assembles_without_registration none ⟨"G", none, [⟨.defineOp, "r", .app "x"⟩]⟩
      ⟨[("a", ⟨5, "a", []⟩)], 7⟩ (.mk "G" [("r", .App "x")] none) rfl⟩

/-- C7: input text on which the grammar-declaration parser fails makes
makeGrammar and makeGrammars return MalformedSourceError immediately, with
the registry, and hence every namespace, unchanged and no Grammar
produced. -/
theorem malformed_source_aborts (pg : String → Option GrammarDecl)
    (pgs : String → Option (List GrammarDecl)) (source : String)
    (optNs : Option Namespace) (st : Registry)
    (h1 : pg source = none) (h2 : pgs source = none) :
    makeGrammar pg source optNs st = (.error .MalformedSourceError, st) ∧
    makeGrammars pgs source optNs st = (.error .MalformedSourceError, st) := by
  constructor
  · unfold makeGrammar
    rw [h1]
  · unfold makeGrammars
    rw [h2]

/-- C7 witness: a parser recognizing nothing, applied to a sample source. -/
theorem malformed_source_aborts_witness :
    ((fun (_ : String) => (none : Option GrammarDecl)) "!!" = none) ∧
    ((fun (_ : String) => (none : Option (List GrammarDecl))) "!!" = none) ∧
    (makeGrammar (fun _ => none) "!!" none ⟨[], 0⟩
      = (.error .MalformedSourceError, ⟨[], 0⟩) ∧
     makeGrammars (fun _ => none) "!!" none ⟨[], 0⟩
      = (.error .MalformedSourceError, ⟨[], 0⟩)) :=
  ⟨rfl, rfl,
    malformed_source_aborts (fun _ => none) (fun _ => none) "!!" none ⟨[], 0⟩ rfl rfl⟩

/-- C10: with no ambient namespace argument, a declaration carrying an
unqualified super-grammar reference fails (the undefined namespace is
dereferenced), while under the same call a declaration with no super-grammar
reference, or with a qualified reference to a registered grammar, still
compiles. -/
theorem unqualified_super_requires_ambient_namespace :
    (∀ (d : GrammarDecl) (st : Registry) (gN : String),
      d.superRef = some (.unqualified gN) →
      compileGrammarDecl none d st = (.error .typeFault, st)) ∧
    (∀ (d : GrammarDecl) (st : Registry) (bf : Builder),
      d.superRef = none →
      compileRules { grammarName := d.name } d.rules = .ok bf →
      compileGrammarDecl none d st = (.ok bf.build, st)) ∧
    (∀ (d : GrammarDecl) (st : Registry) (nsN gN : String) (nsi : Namespace)
        (G : Grammar) (bf : Builder),
      d.superRef = some (.qualified nsN gN) →
      lookupA st.namespaces nsN = some nsi →
      nsi.getGrammar gN = .ok G →
      compileRules { grammarName := d.name, superGrammar := some G } d.rules = .ok bf →
      compileGrammarDecl none d st = (.ok bf.build, st)) := by
  refine ⟨?_, ?_, ?_⟩
  · intro d st gN hsup
    unfold compileGrammarDecl
    rw [hsup]
    rfl
  · intro d st bf hsup hrules
    unfold compileGrammarDecl
    rw [hsup]
    show (match compileRules { grammarName := d.name, superGrammar := none } d.rules with
      | .ok bf2 => ((.ok bf2.build : Except OhmError Grammar), st)
      | .error e => (.error e, st)) = (.ok bf.build, st)
    rw [hrules]
  · intro d st nsN gN nsi G bf hsup hns hget hrules
    unfold compileGrammarDecl
    rw [hsup]
    have hop : namespaceOp nsN st = (nsi, st) := by
      unfold namespaceOp
      rw [hns]
    show (match (Except.map some ((namespaceOp nsN st).1.getGrammar gN),
        (namespaceOp nsN st).2) with
      | (.error e, st2) => ((.error e : Except OhmError Grammar), st2)
      | (.ok sg, st2) =>
        match compileRules { grammarName := d.name, superGrammar := sg } d.rules with
        | .ok bf2 => (.ok bf2.build, st2)
        | .error e => (.error e, st2)) = (.ok bf.build, st)
    rw [hop]
    show (match (Except.map some (nsi.getGrammar gN), st) with
      | (.error e, st2) => ((.error e : Except OhmError Grammar), st2)
      | (.ok sg, st2) =>
        match compileRules { grammarName := d.name, superGrammar := sg } d.rules with
        | .ok bf2 => (.ok bf2.build, st2)
        | .error e => (.error e, st2)) = (.ok bf.build, st)
    rw [hget]
    show (match compileRules { grammarName := d.name, superGrammar := some G } d.rules with
      | .ok bf2 => ((.ok bf2.build : Except OhmError Grammar), st)
      | .error e => (.error e, st)) = (.ok bf.build, st)
    rw [hrules]

/-- C10 witness: the three scenarios with concrete declarations and an
otherwise empty registry. -/
theorem unqualified_super_requires_ambient_namespace_witness :
    (GrammarDecl.superRef ⟨"G", some (.unqualified "P"), []⟩
      = some (.unqualified "P")) ∧
    (compileGrammarDecl none ⟨"G", some (.unqualified "P"), []⟩ ⟨[], 0⟩
      = (.error .typeFault, ⟨[], 0⟩)) ∧
    (compileGrammarDecl none ⟨"G", none, []⟩ ⟨[], 0⟩
      = (.ok (Builder.build { grammarName := "G" }), ⟨[], 0⟩)) ∧
    (compileGrammarDecl none ⟨"H", some (.qualified "ns" "B"), []⟩
        ⟨[("ns", ⟨0, "ns", [("B", .mk "B" [] none)]⟩)], 1⟩
      = (.ok (Builder.build
          { grammarName := "H", superGrammar := some (.mk "B" [] none) }),
        ⟨[("ns", ⟨0, "ns", [("B", .mk "B" [] none)]⟩)], 1⟩)) :=
  ⟨rfl,
    unqualified_super_requires_ambient_namespace.1
      ⟨"G", some (.unqualified "P"), []⟩ ⟨[], 0⟩ "P" rfl,
    unqualified_super_requires_ambient_namespace.2.1
      ⟨"G", none, []⟩ ⟨[], 0⟩ { grammarName := "G" } rfl rfl,
    unqualified_super_requires_ambient_namespace.2.2
      ⟨"H", some (.qualified "ns" "B"), []⟩
      ⟨[("ns", ⟨0, "ns", [("B", .mk "B" [] none)]⟩)], 1⟩
      "ns" "B" ⟨0, "ns", [("B", .mk "B" [] none)]⟩ (.mk "B" [] none)
      { grammarName := "H", superGrammar := some (.mk "B" [] none) } rfl rfl rfl rfl⟩

end Ohm
